import Mathlib

/-!
Verification development for the configurable-class expansion / registry /
auto-creation engine of `pytorch3d/implicitron/tools/config.py`.

The Python module is shallowly embedded: Python classes are rows in an
explicit class table keyed by a `ClassId` (distinct from the class's
`__name__`, since two distinct Python class objects may share a name);
`omegaconf.DictConfig` trees are ordered association lists; the process-wide
mutable state (class objects mutated in place by `expand_args_fields`, the
global registry, emitted warnings) is an explicit `Env` threaded through the
operations; Python exceptions are `Except Err`; the mutual recursion between
`expand_args_fields`, `get_default_args`, instance construction and
`run_auto_creation` is made total with a fuel parameter (`Err.fuel` on
exhaustion).
-/

namespace ConfigSys

/-- Identity of a Python class object (unique key in the class table). -/
abbrev ClassId := String

/-- Errors corresponding to the Python exceptions the module can raise,
plus `fuel` for exhaustion of the termination fuel of the embedding. -/
inductive Err where
  | valueError
  | keyError
  | typeError
  | attrError
  | fuel
  | other
deriving DecidableEq, Repr

/-- A value stored in a DictConfig tree: primitives, nested trees, and the
omegaconf MISSING placeholder for fields without a default. -/
inductive Val where
  | vint : Int → Val
  | vstr : String → Val
  | vbool : Bool → Val
  | vdict : List (String × Val) → Val
  | vmissing : Val

/-- The declared annotation of a dataclass member: primitive types,
a reference to a class in the class table, `DictConfig`, or anything else
(e.g. `typing.Tuple`, which is not a `type`). -/
inductive PyType where
  | pint
  | pstr
  | pbool
  | pclassRef : ClassId → PyType
  | pdictConfig
  | pother
deriving DecidableEq, Repr

/-- A default carried by a class attribute for an annotated field: either a
plain value or a `dataclasses.field(default_factory=...)` closure produced by
`get_default_args_field(target, _do_not_process=dnp)`. -/
inductive Default where
  | dval : Val → Default
  | dfactory : ClassId → List ClassId → Default

/-- A `create_<name>` method generated by `_default_create(name, type_, pluggable)`. -/
inductive CreateFn where
  | defaultCreate : String → ClassId → Bool → CreateFn
deriving DecidableEq, Repr

/-- One Python class object: its `__name__`, `__bases__`, `__mro__`, own
`__annotations__` (ordered), own attribute defaults for annotated fields, own
`create_<x>` methods, whether its `__post_init__` calls `run_auto_creation`,
whether `__dataclass_fields__` is in its own dict (sealed), the dataclass
fields computed at seal time, and the three bookkeeping attributes set by
`expand_args_fields` (absent before sealing). -/
structure ClassInfo where
  name : String
  bases : List ClassId
  mro : List ClassId
  anns : List (String × PyType)
  attrs : List (String × Default)
  createFns : List (String × CreateFn)
  callsAuto : Bool
  sealed : Bool
  fields : List (String × Option Default)
  creation : Option (List String)
  knownImpls : Option (List (String × ClassId))
  processedMembers : Option (List String)

/-- The process-wide mutable state: the class table, the global `registry`
mapping (namespace root → name → class), and the warnings emitted so far. -/
structure Env where
  classes : List (ClassId × ClassInfo)
  reg : List (ClassId × List (String × ClassId))
  warns : List String

/-- Association-list lookup (first match), mirroring Python dict access. -/
def alookup {β : Type} (l : List (String × β)) (k : String) : Option β :=
  match l with
  | [] => none
  | (k2, v) :: rest => if k2 = k then some v else alookup rest k

/-- Association-list insert with Python dict semantics: an existing key keeps
its position and gets the new value; a new key is appended at the end. -/
def aset {β : Type} (l : List (String × β)) (k : String) (v : β) :
    List (String × β) :=
  match l with
  | [] => [(k, v)]
  | (k2, v2) :: rest =>
      if k2 = k then (k2, v) :: rest else (k2, v2) :: aset rest k v

/-- Association-list delete (first match), mirroring `del d[k]` / `d.pop(k, None)`. -/
def adel {β : Type} (l : List (String × β)) (k : String) :
    List (String × β) :=
  match l with
  | [] => []
  | (k2, v2) :: rest => if k2 = k then rest else (k2, v2) :: adel rest k

def lookupInfo (env : Env) (c : ClassId) : Option ClassInfo :=
  alookup env.classes c

/-- Update one class's row in the class table (Python mutates the class
object in place). -/
def updateClass (env : Env) (c : ClassId) (f : ClassInfo → ClassInfo) : Env :=
  { env with classes :=
      env.classes.map (fun p => if p.1 = c then (p.1, f p.2) else p) }

/-- Append a warning (`warnings.warn`). -/
def addWarn (env : Env) (w : String) : Env :=
  { env with warns := env.warns ++ [w] }

def mroOf (env : Env) (c : ClassId) : List ClassId :=
  match lookupInfo env c with
  | some i => i.mro
  | none => [c]

def basesOf (env : Env) (c : ClassId) : List ClassId :=
  match lookupInfo env c with
  | some i => i.bases
  | none => []

def nameOf (env : Env) (c : ClassId) : String :=
  match lookupInfo env c with
  | some i => i.name
  | none => c

def sealedOf (env : Env) (c : ClassId) : Bool :=
  match lookupInfo env c with
  | some i => i.sealed
  | none => false

/-- `issubclass(a, b)`: b is in a's mro (the mro of a class starts with the
class itself). -/
def issub (env : Env) (a b : ClassId) : Prop :=
  b ∈ mroOf env a

instance (env : Env) (a b : ClassId) : Decidable (issub env a b) := by
  unfold issub; infer_instance

def TYPE_SUFFIX : String := "_class_type"
def ARGS_SUFFIX : String := "_args"

/-- `_Registry._is_base_class`: a direct subclass of ReplaceableBase, used as
a registry namespace. -/
def isBaseClass (env : Env) (c : ClassId) : Prop :=
  "ReplaceableBase" ∈ basesOf env c

instance (env : Env) (c : ClassId) : Decidable (isBaseClass env c) := by
  unfold isBaseClass; infer_instance

/-- `_Registry._base_class_from_class`: walk `mro()[-3::-1]` (all of the mro
except the last two entries, most basal first) and return the first class
which is not ReplaceableBase itself but subclasses it. -/
def baseClassFromClass (env : Env) (c : ClassId) : Option ClassId :=
  ((mroOf env c).dropLast.dropLast.reverse).find?
    (fun b => decide (b ≠ "ReplaceableBase" ∧ issub env b "ReplaceableBase"))

/-- Contents of one registry namespace (`self._mapping[base]`, a defaultdict:
absent namespaces read as empty). -/
def regNamespace (env : Env) (base : ClassId) : List (String × ClassId) :=
  match alookup env.reg base with
  | some es => es
  | none => []

/-- Write one entry into a registry namespace. -/
def regSet (env : Env) (base : ClassId) (n : String) (t : ClassId) : Env :=
  { env with reg := aset env.reg base (aset (regNamespace env base) n t) }

/-- `_Registry._register` followed by `register`: derive the namespace from
the class (no explicit base is ever passed by `register`), refuse a class that
is its own namespace root, then insert/overwrite the (namespace, `__name__`)
entry. Returns the updated environment (Python returns the class unchanged). -/
def registerClass (env : Env) (c : ClassId) : Except Err Env :=
  match baseClassFromClass env c with
  | none => .error .valueError
  | some base =>
      if c = base then .error .valueError
      else .ok (regSet env base (nameOf env c) c)

/-- The namespace root `_Registry.get` / `get_all` resolve for a requested
base: the requested base itself when it is a direct subclass of
ReplaceableBase, otherwise `_base_class_from_class` of it. -/
def regRoot (env : Env) (b : ClassId) : Option ClassId :=
  if isBaseClass env b then some b else baseClassFromClass env b

/-- `_Registry.get`: resolve the namespace root, look the name up in that
namespace, and check the result subclasses the requested base. -/
def registryGet (env : Env) (b : ClassId) (n : String) : Except Err ClassId :=
  match regRoot env b with
  | none => .error .valueError
  | some base =>
      match alookup (regNamespace env base) n with
      | none => .error .valueError
      | some t => if issub env t b then .ok t else .error .valueError

/-- `_Registry.get_all`: for a namespace root, all registered entries of its
namespace; otherwise all entries of the derived namespace which subclass the
requested base and are not the requested base itself. -/
def registryGetAll (env : Env) (b : ClassId) : Except Err (List ClassId) :=
  if isBaseClass env b then .ok ((regNamespace env b).map (fun p => p.2))
  else
    match baseClassFromClass env b with
    | none => .error .valueError
    | some base =>
        .ok (((regNamespace env base).map (fun p => p.2)).filter
          (fun t => decide (issub env t b ∧ t ≠ b)))

/-- `_is_configurable_class`: subclass of Configurable or ReplaceableBase. -/
def isConfigurableClass (env : Env) (c : ClassId) : Prop :=
  issub env c "Configurable" ∨ issub env c "ReplaceableBase"

instance (env : Env) (c : ClassId) : Decidable (isConfigurableClass env c) := by
  unfold isConfigurableClass; infer_instance

def annsOf (env : Env) (c : ClassId) : List (String × PyType) :=
  match lookupInfo env c with
  | some i => i.anns
  | none => []

/-- Attribute lookup through the mro: first class providing a `create_<x>`
method (models `hasattr` / method resolution for creation functions). -/
def findCreateFn (env : Env) (c : ClassId) (n : String) : Option CreateFn :=
  (mroOf env c).findSome? (fun b =>
    match lookupInfo env b with
    | some i => alookup i.createFns n
    | none => none)

/-- Attribute lookup through the mro for `_processed_members`. -/
def processedOf (env : Env) (c : ClassId) : List String :=
  match (mroOf env c).findSome? (fun b =>
      match lookupInfo env b with
      | some i => i.processedMembers
      | none => none) with
  | some l => l
  | none => []

/-- Attribute lookup through the mro for `_creation_functions`. -/
def creationOf (env : Env) (c : ClassId) : List String :=
  match (mroOf env c).findSome? (fun b =>
      match lookupInfo env b with
      | some i => i.creation
      | none => none) with
  | some l => l
  | none => []

/-- Attribute lookup through the mro for `_known_implementations`. -/
def knownOf (env : Env) (c : ClassId) : List (String × ClassId) :=
  match (mroOf env c).findSome? (fun b =>
      match lookupInfo env b with
      | some i => i.knownImpls
      | none => none) with
  | some l => l
  | none => []

/-- Attribute lookup through the mro for `__dataclass_fields__` (the
dataclass fields used by `OmegaConf.structured` and by `__init__`). -/
def findDataclassFields (env : Env) (c : ClassId) :
    Option (List (String × Option Default)) :=
  match (mroOf env c).find? (fun b => sealedOf env b) with
  | some b =>
      match lookupInfo env b with
      | some i => some i.fields
      | none => none
  | none => none

/-- Does `__post_init__` (resolved through the mro) call `run_auto_creation`? -/
def effectiveCallsAuto (env : Env) (c : ClassId) : Bool :=
  (mroOf env c).any (fun b =>
    match lookupInfo env b with
    | some i => i.callsAuto
    | none => false)

/-- Member classification of `expand_args_fields`: a member is picked up for
processing iff its annotation is a class which either (pluggable) subclasses
ReplaceableBase and is a direct child of it, or else (fixed) subclasses
Configurable. -/
def classifyMember (env : Env) (p : String × PyType) :
    Option (String × ClassId × Bool) :=
  match p.2 with
  | .pclassRef t =>
      if issub env t "ReplaceableBase" ∧ "ReplaceableBase" ∈ basesOf env t then
        some (p.1, t, true)
      else if issub env t "Configurable" then some (p.1, t, false)
      else none
  | _ => none

/-- The `to_process` list of `expand_args_fields`. -/
def toProcess (env : Env) (anns : List (String × PyType)) :
    List (String × ClassId × Bool) :=
  anns.filterMap (classifyMember env)

/-- Accumulators threaded through the processing of one class: the ordered
creation-function names, the known implementations, and the processed member
names. -/
structure Acc where
  creation : List String
  known : List (String × ClassId)
  processed : List String

/-- Merge one expanded base's bookkeeping (`_creation_functions` extended,
`_known_implementations` and `_processed_members` updated) into the
accumulators, when present in the base's own dict. -/
def mergeBaseBookkeeping (env : Env) (b : ClassId) (acc : Acc) : Acc :=
  match lookupInfo env b with
  | none => acc
  | some i =>
      { creation :=
          match i.creation with
          | some l => acc.creation ++ l
          | none => acc.creation
        known :=
          match i.knownImpls with
          | some l => l.foldl (fun m p => aset m p.1 p.2) acc.known
          | none => acc.known
        processed :=
          match i.processedMembers with
          | some l => l.foldl (fun m x => if x ∈ m then m else m ++ [x])
              acc.processed
          | none => acc.processed }

/-- First occurrences of the elements of a list, in order. -/
def dedupFirst (l : List String) : List String :=
  l.foldl (fun acc x => if x ∈ acc then acc else acc ++ [x]) []

/-- Keys occurring more than once (the `Counter` clash diagnostic). -/
def dupKeys (l : List String) : List String :=
  (dedupFirst l).filter (fun k => 2 ≤ l.count k)

/-- Dataclass field collection at sealing time: fields of sealed bases in
reverse mro order, then the class's own annotations with their defaults from
the class attributes (absent attribute = required field). -/
def computeFields (env : Env) (c : ClassId) : List (String × Option Default) :=
  let baseFields := ((mroOf env c).drop 1).reverse.foldl
    (fun m b =>
      match lookupInfo env b with
      | some bi => if bi.sealed then bi.fields.foldl (fun m2 p => aset m2 p.1 p.2) m else m
      | none => m)
    []
  match lookupInfo env c with
  | some i => i.anns.foldl (fun m p => aset m p.1 (alookup i.attrs p.1)) baseFields
  | none => baseFields

/-- The `dataclasses.dataclass` ordering rule: no required field may follow a
defaulted one (TypeError otherwise). -/
def fieldsOrderOk : List (String × Option Default) → Bool :=
  go false
where
  go (seenDefault : Bool) : List (String × Option Default) → Bool
    | [] => true
    | (_, d?) :: rest =>
        match d? with
        | some _ => go true rest
        | none => if seenDefault then false else go false rest

/-- The registered-implementation loop of `_process_member` for a pluggable
member `name`: skip implementations being processed or subclassing the class
under expansion, record the rest in known implementations, and generate one
`<name>_<ImplName>_args` field per kept implementation (error on collision). -/
def processImpls (c : ClassId) (memberName : String) (dnp : List ClassId) :
    Env → List (String × ClassId) → List ClassId →
    Except Err (Env × List (String × ClassId))
  | env, known, [] => .ok (env, known)
  | env, known, d :: rest =>
      if d ∈ dnp then processImpls c memberName dnp env known rest
      else if issub env d c then processImpls c memberName dnp env known rest
      else
        let known2 := aset known (nameOf env d) d
        let argsName := memberName ++ "_" ++ nameOf env d ++ ARGS_SUFFIX
        if (alookup (annsOf env c) argsName).isSome then .error .valueError
        else
          let env2 := updateClass env c (fun i =>
            { i with
              anns := i.anns ++ [(argsName, .pdictConfig)]
              attrs := aset i.attrs argsName (.dfactory d (dnp ++ [c])) })
          processImpls c memberName dnp env2 known2 rest

/-- For a pluggable member: declare `<name>_class_type : str = "UNDEFAULTED"`
unless the engineer already declared it. -/
def addClassTypeField (env : Env) (c : ClassId) (memberName : String) : Env :=
  let tn := memberName ++ TYPE_SUFFIX
  if (alookup (annsOf env c) tn).isSome then env
  else updateClass env c (fun i =>
    { i with
      anns := i.anns ++ [(tn, .pstr)]
      attrs := aset i.attrs tn (.dval (.vstr "UNDEFAULTED")) })

/-- For a fixed member: generate `<name>_args` (error on collision, on a
member subclassing the class under expansion, or on a member currently being
processed). -/
def fixedMemberUpdate (env : Env) (c : ClassId) (dnp : List ClassId)
    (memberName : String) (t : ClassId) : Except Err Env :=
  let argsName := memberName ++ ARGS_SUFFIX
  if (alookup (annsOf env c) argsName).isSome then .error .valueError
  else if issub env t c ∨ t ∈ dnp then .error .valueError
  else .ok (updateClass env c (fun i =>
    { i with
      anns := i.anns ++ [(argsName, .pdictConfig)]
      attrs := aset i.attrs argsName (.dfactory t (dnp ++ [c])) }))

/-- Install the generated `create_<name>` method unless the class (or a
base) already has one. -/
def addCreateFn (env : Env) (c : ClassId) (memberName : String) (t : ClassId)
    (pluggable : Bool) : Env :=
  let cn := "create_" ++ memberName
  if (findCreateFn env c cn).isSome then env
  else updateClass env c (fun i =>
    { i with createFns := aset i.createFns cn (.defaultCreate memberName t pluggable) })

/-- `_process_member`: remove the member's annotation and generate the
replacement fields and the creation function for it. Returns the updated
environment and known-implementations map. -/
def processMember (env : Env) (c : ClassId) (dnp : List ClassId)
    (known : List (String × ClassId)) (m : String × ClassId × Bool) :
    Except Err (Env × List (String × ClassId)) := do
  let (memberName, t, pluggable) := m
  let env := updateClass env c (fun i => { i with anns := adel i.anns memberName })
  let (env, known) ←
    if pluggable then do
      let env := addClassTypeField env c memberName
      let impls ← registryGetAll env t
      processImpls c memberName dnp env known impls
    else do
      let env ← fixedMemberUpdate env c dnp memberName t
      pure (env, known)
  pure (addCreateFn env c memberName t pluggable, known)

/-- The member-processing loop of `expand_args_fields`. -/
def processMembers (env : Env) (c : ClassId) (dnp : List ClassId) (acc : Acc) :
    List (String × ClassId × Bool) → Except Err (Env × Acc)
  | [] => .ok (env, acc)
  | m :: rest => do
      let (env2, known) ← processMember env c dnp acc.known m
      let acc2 : Acc :=
        { creation := acc.creation ++ ["create_" ++ m.1]
          known := known
          processed :=
            if m.1 ∈ acc.processed then acc.processed else acc.processed ++ [m.1] }
      processMembers env2 c dnp acc2 rest

/-- The tail of `expand_args_fields` after member processing: emit the
creation-function clash diagnostics, record the bookkeeping attributes on the
class, and apply the `dataclasses.dataclass(eq=False)` transformation
(computing the field list and sealing, or failing on bad field order). -/
def sealAndRecord (env : Env) (c : ClassId) (acc : Acc) : Except Err Env :=
  let env := (dupKeys acc.creation).foldl
    (fun e k => addWarn e ("Clash with " ++ k ++ " in a base class.")) env
  let env := updateClass env c (fun i =>
    { i with
      creation := some acc.creation
      processedMembers := some acc.processed
      knownImpls := some acc.known })
  let fs := computeFields env c
  if fieldsOrderOk fs then
    .ok (updateClass env c (fun i => { i with fields := fs, sealed := true }))
  else .error .typeError

/-- A target of `get_default_args`: `None`, a class of the table, or an
arbitrary callable given by its parameters with optional default values. -/
inductive Target where
  | noneT : Target
  | cls : ClassId → Target
  | callable : List (String × Option Val) → Target

/-- A runtime value held by an instance member: a config value or a
constructed instance of a class. -/
inductive RVal where
  | prim : Val → RVal
  | obj : ClassId → List (String × RVal) → RVal

mutual

/-- `expand_args_fields`: no-op on an already sealed class, otherwise expand
all relevant bases (merging their bookkeeping), process every classified
member, record clash diagnostics and bookkeeping, and seal the class by the
dataclass transformation. -/
def expand_args_fields (fuel : Nat) (env : Env) (c : ClassId)
    (dnp : List ClassId) : Except Err Env :=
  match fuel with
  | 0 => .error .fuel
  | fuel + 1 =>
      if sealedOf env c then .ok env
      else do
        let basesList := (((mroOf env c).drop 1).dropLast.dropLast).reverse
        let (env, acc) ← expandBases fuel env basesList dnp ⟨[], [], []⟩
        let (env, acc) ← processMembers env c dnp acc (toProcess env (annsOf env c))
        sealAndRecord env c acc

/-- The base-expansion loop of `expand_args_fields` over `mro()[-3:0:-1]`:
skip the two marker roots and non-marker bases, expand the rest and merge
their bookkeeping. -/
def expandBases (fuel : Nat) (env : Env) (bs : List ClassId)
    (dnp : List ClassId) (acc : Acc) : Except Err (Env × Acc) :=
  match fuel with
  | 0 => .error .fuel
  | fuel + 1 =>
      match bs with
      | [] => .ok (env, acc)
      | b :: rest =>
          if b = "ReplaceableBase" ∨ b = "Configurable" then
            expandBases fuel env rest dnp acc
          else if ¬ (issub env b "Configurable" ∨ issub env b "ReplaceableBase") then
            expandBases fuel env rest dnp acc
          else do
            let env ← expand_args_fields fuel env b dnp
            let acc := mergeBaseBookkeeping env b acc
            expandBases fuel env rest dnp acc

/-- `get_default_args`: empty tree for `None`; for a configurable class,
refuse a class currently being processed, expand it, build the structured
tree of its dataclass fields and drop the processed member names; for a
callable, the deep-copied defaulted parameters. -/
def get_default_args (fuel : Nat) (env : Env) (t : Target)
    (dnp : List ClassId) : Except Err (Val × Env) :=
  match fuel with
  | 0 => .error .fuel
  | fuel + 1 =>
      match t with
      | .noneT => .ok (.vdict [], env)
      | .callable ps =>
          .ok (.vdict (ps.filterMap (fun p => p.2.map (fun v => (p.1, v)))), env)
      | .cls c => do
          let env ←
            if isConfigurableClass env c then
              if c ∈ dnp then .error .valueError
              else expand_args_fields fuel env c dnp
            else .ok env
          match findDataclassFields env c with
          | some fs => do
              let (entries, env) ← structuredFields fuel env fs
              let entries := (processedOf env c).foldl (fun es f => adel es f) entries
              .ok (.vdict entries, env)
          | none =>
              if isConfigurableClass env c then .error .valueError
              else .error .other

/-- `OmegaConf.structured` over a list of dataclass fields: plain defaults
are copied, `get_default_args_field` factories are evaluated (which may
expand further classes), required fields become MISSING. -/
def structuredFields (fuel : Nat) (env : Env)
    (fs : List (String × Option Default)) :
    Except Err (List (String × Val) × Env) :=
  match fuel with
  | 0 => .error .fuel
  | fuel + 1 =>
      match fs with
      | [] => .ok ([], env)
      | (n, d?) :: rest => do
          let (v, env) ←
            (match d? with
             | some (.dval v) => .ok (v, env)
             | some (.dfactory t fdnp) => get_default_args fuel env (.cls t) fdnp
             | none => .ok (.vmissing, env) : Except Err (Val × Env))
          let (vs, env) ← structuredFields fuel env rest
          .ok ((n, v) :: vs, env)

/-- Instance construction `C(**kwargs)` of a processed class: reject unknown
keywords, fill each dataclass field from the keyword arguments or its
default, then run `__post_init__` (which calls `run_auto_creation`) when the
class declares it. -/
def construct (fuel : Nat) (env : Env) (c : ClassId)
    (kwargs : List (String × Val)) : Except Err (RVal × Env) :=
  match fuel with
  | 0 => .error .fuel
  | fuel + 1 =>
      match findDataclassFields env c with
      | none => .error .typeError
      | some fs =>
          if kwargs.all (fun p => (alookup fs p.1).isSome) then do
            let (instFields, env) ← constructFields fuel env fs kwargs
            if effectiveCallsAuto env c then do
              let (instFields, env) ← runCreations fuel env c (creationOf env c) instFields
              .ok (.obj c instFields, env)
            else .ok (.obj c instFields, env)
          else .error .typeError

/-- Field initialisation of the generated dataclass `__init__`: keyword
argument if given, else the plain default, else the evaluated default
factory; a missing required argument is an error. -/
def constructFields (fuel : Nat) (env : Env)
    (fs : List (String × Option Default)) (kwargs : List (String × Val)) :
    Except Err (List (String × RVal) × Env) :=
  match fuel with
  | 0 => .error .fuel
  | fuel + 1 =>
      match fs with
      | [] => .ok ([], env)
      | (n, d?) :: rest => do
          let (v, env) ←
            (match alookup kwargs n with
             | some v => .ok (RVal.prim v, env)
             | none =>
                 match d? with
                 | some (.dval v) => .ok (RVal.prim v, env)
                 | some (.dfactory t fdnp) => do
                     let (v, env) ← get_default_args fuel env (.cls t) fdnp
                     .ok (RVal.prim v, env)
                 | none => .error .typeError : Except Err (RVal × Env))
          let (vs, env) ← constructFields fuel env rest kwargs
          .ok ((n, v) :: vs, env)

/-- `run_auto_creation` over the ordered `_creation_functions` names: each
generated fixed step expands the declared type and constructs it from
`<name>_args`; each generated pluggable step resolves `<name>_class_type`
through the registry, emits the staleness diagnostic when the live entry
differs from the one recorded at seal time, expands the chosen class and
constructs it from `<name>_<chosen>_args`; the result is assigned to the
member. -/
def runCreations (fuel : Nat) (env : Env) (c : ClassId) (ns : List String)
    (instFields : List (String × RVal)) :
    Except Err (List (String × RVal) × Env) :=
  match fuel with
  | 0 => .error .fuel
  | fuel + 1 =>
      match ns with
      | [] => .ok (instFields, env)
      | fn :: rest => do
          let (instFields, env) ←
            (match findCreateFn env c fn with
             | none => .error .attrError
             | some (.defaultCreate memberName t pluggable) =>
                 if pluggable then
                   match alookup instFields (memberName ++ TYPE_SUFFIX) with
                   | some (.prim (.vstr tn)) => do
                       let chosen ← registryGet env t tn
                       let env :=
                         if (match alookup (knownOf env c) tn with
                             | some k => k
                             | none => chosen) ≠ chosen then
                           addWarn env ("New implementation of " ++ tn ++ " is being chosen.")
                         else env
                       let env ← expand_args_fields fuel env chosen []
                       match alookup instFields (memberName ++ "_" ++ tn ++ ARGS_SUFFIX) with
                       | some (.prim (.vdict es)) => do
                           let (v, env) ← construct fuel env chosen es
                           .ok (aset instFields memberName v, env)
                       | some _ => .error .typeError
                       | none => .error .attrError
                   | some _ => .error .typeError
                   | none => .error .attrError
                 else do
                   let env ← expand_args_fields fuel env t []
                   match alookup instFields (memberName ++ ARGS_SUFFIX) with
                   | some (.prim (.vdict es)) => do
                       let (v, env) ← construct fuel env t es
                       .ok (aset instFields memberName v, env)
                   | some _ => .error .typeError
                   | none => .error .attrError
             : Except Err (List (String × RVal) × Env))
          runCreations fuel env c rest instFields

end

/-- `run_auto_creation(self)`: run all the functions named in
`self._creation_functions`, in order, against the instance's fields. -/
def run_auto_creation (fuel : Nat) (env : Env) (c : ClassId)
    (instFields : List (String × RVal)) :
    Except Err (List (String × RVal) × Env) :=
  runCreations fuel env c (creationOf env c) instFields

/-- Python `str.endswith`, computed on code points. -/
def strEndsWith (s suf : String) : Bool :=
  suf.data.isSuffixOf s.data

/-- Python `str.startswith`, computed on code points. -/
def strStartsWith (s pre : String) : Bool :=
  pre.data.isPrefixOf s.data

/-- Python slicing `s[:-n]`, computed on code points. -/
def strDropRight (s : String) (n : Nat) : String :=
  ⟨s.data.take (s.data.length - n)⟩

/-- The member name a key ending in the class-type suffix stands for
(`key[:-suffix_length]`), or none. -/
def stripType (k : String) : Option String :=
  if strEndsWith k TYPE_SUFFIX then some (strDropRight k TYPE_SUFFIX.length)
  else none

/-- The deletion loop of `remove_unused_components` for one replaceable
member: delete from the current key set every args key sharing the member's
prefix other than the expected surviving one (`del` on an already deleted key
is a KeyError). -/
def delLoop (pre expect : String) :
    List String → List String → Except Err (List String)
  | [], cur => .ok cur
  | k :: rest, cur =>
      if strStartsWith k pre ∧ k ≠ expect then
        if k ∈ cur then delLoop pre expect rest (cur.erase k)
        else .error .keyError
      else delLoop pre expect rest cur

/-- The outer loop of `remove_unused_components` over the replaceable member
names found at this level: look up the selected implementation name (which
must be a string) and delete this member's unused args keys. -/
def replLoop (entries : List (String × Val)) (argsKeys : List String) :
    List String → List String → Except Err (List String)
  | [], cur => .ok cur
  | r :: rest, cur =>
      match alookup entries (r ++ TYPE_SUFFIX) with
      | some (.vstr s) => do
          let cur ← delLoop (r ++ "_") (r ++ "_" ++ s ++ ARGS_SUFFIX) argsKeys cur
          replLoop entries argsKeys rest cur
      | some _ => .error .typeError
      | none => .error .keyError

/-- Keys of one level of a config tree surviving the pruning of
`remove_unused_components` at that level. -/
def surviving (entries : List (String × Val)) : Except Err (List String) :=
  let keys := entries.map Prod.fst
  let repl := keys.filterMap stripType
  let argsKeys := keys.filter (fun k => strEndsWith k ARGS_SUFFIX)
  replLoop entries argsKeys repl keys

mutual

/-- `remove_unused_components`: prune the unused pluggable args subtrees of
the current level, then recurse into every remaining nested tree. -/
def remove_unused_components : Val → Except Err Val
  | .vdict entries => do
      let keep ← surviving entries
      let entries2 ← pruneEntries entries keep
      .ok (.vdict entries2)
  | v => .ok v
termination_by structural v => v

/-- Keep the surviving entries of one level, recursing into their values. -/
def pruneEntries :
    List (String × Val) → List String → Except Err (List (String × Val))
  | [], _ => .ok []
  | (k, v) :: rest, keep =>
      if k ∈ keep then do
        let v2 ← remove_unused_components v
        let rest2 ← pruneEntries rest keep
        .ok ((k, v2) :: rest2)
      else pruneEntries rest keep
termination_by structural l _ => l

end

/-! Concrete class tables used by the theorems. `mkC` builds an unprocessed
class: no generated methods, not sealed, no bookkeeping. -/

def mkC (name : String) (bases mro : List ClassId)
    (anns : List (String × PyType)) (attrs : List (String × Default))
    (auto : Bool) : ClassInfo :=
  { name := name, bases := bases, mro := mro, anns := anns, attrs := attrs,
    createFns := [], callsAuto := auto, sealed := false, fields := [],
    creation := none, knownImpls := none, processedMembers := none }

/-- The table rows for `object` and the two marker classes. -/
def markerRows : List (ClassId × ClassInfo) :=
  [("object", mkC "object" [] ["object"] [] [] false),
   ("ReplaceableBase",
    mkC "ReplaceableBase" ["object"] ["ReplaceableBase", "object"] [] [] false),
   ("Configurable",
    mkC "Configurable" ["object"] ["Configurable", "object"] [] [] false)]

/-- Scenario A of the specification: replaceable base `A` with
implementations `A1 (m : int = 3)` and `A2 (n : str = "2")`, and
`B(Configurable)` declaring `a : A` and `a_class_type : str = "A2"`,
whose `__post_init__` calls `run_auto_creation`. -/
def scnA_env0 : Env :=
  { classes := markerRows ++
      [("A", mkC "A" ["ReplaceableBase"] ["A", "ReplaceableBase", "object"] [] [] false),
       ("A1", mkC "A1" ["A"] ["A1", "A", "ReplaceableBase", "object"]
          [("m", .pint)] [("m", .dval (.vint 3))] false),
       ("A2", mkC "A2" ["A"] ["A2", "A", "ReplaceableBase", "object"]
          [("n", .pstr)] [("n", .dval (.vstr "2"))] false),
       ("B", mkC "B" ["Configurable"] ["B", "Configurable", "object"]
          [("a", .pclassRef "A"), ("a_class_type", .pstr)]
          [("a_class_type", .dval (.vstr "A2"))] true)]
    reg := [], warns := [] }

/-- Scenario A after the two `@registry.register` decorators have run. -/
def scnA_reg : Except Err Env := do
  let e ← registerClass scnA_env0 "A1"
  registerClass e "A2"

/-- The returned tree of a `get_default_args` result. -/
def exTree (r : Except Err (Val × Env)) : Option Val :=
  match r with
  | .ok (v, _) => some v
  | .error _ => none

/-- One member of the instance of a construction result. -/
def exMember (r : Except Err (RVal × Env)) (m : String) : Option RVal :=
  match r with
  | .ok (.obj _ fs, _) => alookup fs m
  | _ => none

/-- The warnings present after a construction result. -/
def exWarns (r : Except Err (RVal × Env)) : Option (List String) :=
  match r with
  | .ok (_, e) => some e.warns
  | .error _ => none

/-- `get_default_args(B)` in Scenario A. -/
def scnA_default : Except Err (Val × Env) :=
  scnA_reg.bind (fun e => get_default_args 40 e (.cls "B") [])

/-- The tree Scenario A is specified to produce. -/
def scnA_expected : Val :=
  .vdict [("a_class_type", .vstr "A2"),
          ("a_A1_args", .vdict [("m", .vint 3)]),
          ("a_A2_args", .vdict [("n", .vstr "2")])]

/-- The Scenario A tree after pruning. -/
def scnA_pruned : Val :=
  .vdict [("a_class_type", .vstr "A2"),
          ("a_A2_args", .vdict [("n", .vstr "2")])]

/-- Scenario A round trip: extract the default tree, prune it, and construct
`B` from the pruned tree (running auto-creation in `__post_init__`). -/
def scnA_roundtrip : Except Err (RVal × Env) := do
  let e ← scnA_reg
  let (t, e) ← get_default_args 40 e (.cls "B") []
  let t2 ← remove_unused_components t
  match t2 with
  | .vdict es => construct 40 e "B" es
  | _ => .error .other

/-- The registry state produced by the two registrations of Scenario A. -/
def scnA_envReg : Env :=
  { scnA_env0 with reg := [("A", [("A1", "A1"), ("A2", "A2")])] }

/-- The environment after `get_default_args(B)` has sealed Scenario A's
classes: `A`, `A1`, `A2` and `B` are dataclasses, `B` carries the generated
`a_class_type`, `a_A1_args` and `a_A2_args` fields, the `create_a` creation
step, and the bookkeeping recorded at seal time. -/
def scnA_envSealed : Env :=
  { classes := [
      ("object",
       { name := "object", bases := [], mro := ["object"], anns := [],
         attrs := [], createFns := [], callsAuto := false, sealed := false,
         fields := [], creation := none, knownImpls := none,
         processedMembers := none }),
      ("ReplaceableBase",
       { name := "ReplaceableBase", bases := ["object"],
         mro := ["ReplaceableBase", "object"], anns := [], attrs := [],
         createFns := [], callsAuto := false, sealed := false, fields := [],
         creation := none, knownImpls := none, processedMembers := none }),
      ("Configurable",
       { name := "Configurable", bases := ["object"],
         mro := ["Configurable", "object"], anns := [], attrs := [],
         createFns := [], callsAuto := false, sealed := false, fields := [],
         creation := none, knownImpls := none, processedMembers := none }),
      ("A",
       { name := "A", bases := ["ReplaceableBase"],
         mro := ["A", "ReplaceableBase", "object"], anns := [], attrs := [],
         createFns := [], callsAuto := false, sealed := true, fields := [],
         creation := some [], knownImpls := some [],
         processedMembers := some [] }),
      ("A1",
       { name := "A1", bases := ["A"], mro := ["A1", "A", "ReplaceableBase", "object"],
         anns := [("m", .pint)], attrs := [("m", .dval (.vint 3))],
         createFns := [], callsAuto := false, sealed := true,
         fields := [("m", some (.dval (.vint 3)))], creation := some [],
         knownImpls := some [], processedMembers := some [] }),
      ("A2",
       { name := "A2", bases := ["A"], mro := ["A2", "A", "ReplaceableBase", "object"],
         anns := [("n", .pstr)], attrs := [("n", .dval (.vstr "2"))],
         createFns := [], callsAuto := false, sealed := true,
         fields := [("n", some (.dval (.vstr "2")))], creation := some [],
         knownImpls := some [], processedMembers := some [] }),
      ("B",
       { name := "B", bases := ["Configurable"], mro := ["B", "Configurable", "object"],
         anns := [("a_class_type", .pstr), ("a_A1_args", .pdictConfig),
                  ("a_A2_args", .pdictConfig)],
         attrs := [("a_class_type", .dval (.vstr "A2")),
                   ("a_A1_args", .dfactory "A1" ["B"]),
                   ("a_A2_args", .dfactory "A2" ["B"])],
         createFns := [("create_a", .defaultCreate "a" "A" true)],
         callsAuto := true, sealed := true,
         fields := [("a_class_type", some (.dval (.vstr "A2"))),
                    ("a_A1_args", some (.dfactory "A1" ["B"])),
                    ("a_A2_args", some (.dfactory "A2" ["B"]))],
         creation := some ["create_a"],
         knownImpls := some [("A1", "A1"), ("A2", "A2")],
         processedMembers := some ["a"] })],
    reg := [("A", [("A1", "A1"), ("A2", "A2")])],
    warns := [] }

/-- The member values of the instance `B()` built in Scenario A. -/
def scnA_instFields : List (String × RVal) :=
  [("a_class_type", .prim (.vstr "A2")),
   ("a_A1_args", .prim (.vdict [("m", .vint 3)])),
   ("a_A2_args", .prim (.vdict [("n", .vstr "2")])),
   ("a", .obj "A2" [("n", .prim (.vstr "2"))])]

set_option maxHeartbeats 2000000 in
/-- C1: Round-trip construction in Scenario A. Registration produces the
expected registry; `get_default_args(B)` yields exactly the tree with
`a_class_type = "A2"`, `a_A1_args = (m = 3)` and `a_A2_args = (n = "2")`
(sealing the classes); pruning that tree keeps `a_class_type` and
`a_A2_args` only; constructing `B` from the pruned tree runs auto-creation,
which assigns to member `a` an instance of the class registered under the
name `"A2"` that `a_class_type` holds — an `A2` whose `n` is `"2"` — built
from the `a_A2_args` subtree; and the registry indeed resolves
`("A", "A2")` to that class. -/
theorem scenarioA_roundtrip_spec :
    scnA_reg = .ok scnA_envReg ∧
    get_default_args 40 scnA_envReg (.cls "B") [] =
      .ok (scnA_expected, scnA_envSealed) ∧
    remove_unused_components scnA_expected = .ok scnA_pruned ∧
    construct 40 scnA_envSealed "B"
        [("a_class_type", .vstr "A2"), ("a_A2_args", .vdict [("n", .vstr "2")])] =
      .ok (.obj "B" scnA_instFields, scnA_envSealed) ∧
    alookup scnA_instFields "a" = some (.obj "A2" [("n", .prim (.vstr "2"))]) ∧
    registryGet scnA_envSealed "A" "A2" = .ok "A2" := by
  exact ⟨rfl, rfl, rfl, rfl, rfl, rfl⟩

/-- A minimal table containing one already-sealed class `S`. -/
def sealedS_env : Env :=
  { classes := [("S",
      { mkC "S" ["Configurable"] ["S", "Configurable", "object"] [] [] false with
        sealed := true, creation := some [], knownImpls := some [],
        processedMembers := some [] })]
    reg := [], warns := [] }

/-- C2: expanding an already sealed class is an immediate no-op — the whole
environment (in particular the class's field list, creation-step list and
every other attribute) is returned unchanged. -/
theorem expand_args_fields_idempotent (fuel : Nat) (env : Env) (c : ClassId)
    (dnp : List ClassId) (h : sealedOf env c = true) :
    expand_args_fields (fuel + 1) env c dnp = .ok env := by
  simp [expand_args_fields, h]

/-- Witness for C2 at the concrete sealed class `S`. -/
theorem expand_args_fields_idempotent_witness :
    expand_args_fields 5 sealedS_env "S" [] = .ok sealedS_env :=
  expand_args_fields_idempotent 4 sealedS_env "S" [] (by decide)

/-- C10: `get_default_args(None)` returns the empty config tree without
touching the environment and without raising. -/
theorem get_default_args_none (fuel : Nat) (env : Env) (dnp : List ClassId) :
    get_default_args (fuel + 1) env .noneT dnp = .ok (.vdict [], env) := rfl

/-- Two namespace roots `R1`, `R2` with one implementation each, both named
`"Impl"`. -/
def iso_env0 : Env :=
  { classes := markerRows ++
      [("R1", mkC "R1" ["ReplaceableBase"] ["R1", "ReplaceableBase", "object"] [] [] false),
       ("R2", mkC "R2" ["ReplaceableBase"] ["R2", "ReplaceableBase", "object"] [] [] false),
       ("X1", mkC "Impl" ["R1"] ["X1", "R1", "ReplaceableBase", "object"] [] [] false),
       ("X2", mkC "Impl" ["R2"] ["X2", "R2", "ReplaceableBase", "object"] [] [] false)]
    reg := [], warns := [] }

/-- Both same-named implementations registered, each in its own namespace. -/
def iso_envBoth : Env :=
  { iso_env0 with reg := [("R1", [("Impl", "X1")]), ("R2", [("Impl", "X2")])] }

/-- Only the `R1` implementation registered. -/
def iso_envOne : Env :=
  { iso_env0 with reg := [("R1", [("Impl", "X1")])] }

/-- C3: `registry.get` fails exactly when no namespace root is derivable
from the requested base, or the name is absent from that namespace, or the
resolved type does not subclass the requested base; otherwise it returns the
registered type. Same-named entries in different namespaces do not collide:
each resolves in its own namespace, and a base from a namespace where the
name is unregistered fails. -/
theorem registry_get_spec :
    (∀ env b n,
        (∃ e, registryGet env b n = .error e) ↔
          (regRoot env b = none ∨
           (∃ r, regRoot env b = some r ∧ alookup (regNamespace env r) n = none) ∨
           (∃ r t, regRoot env b = some r ∧
              alookup (regNamespace env r) n = some t ∧ ¬ issub env t b))) ∧
    (∀ env b n r t, regRoot env b = some r →
        alookup (regNamespace env r) n = some t → issub env t b →
        registryGet env b n = .ok t) ∧
    (registerClass iso_env0 "X1").bind (fun e => registerClass e "X2") =
      .ok iso_envBoth ∧
    registryGet iso_envBoth "R1" "Impl" = .ok "X1" ∧
    registryGet iso_envBoth "R2" "Impl" = .ok "X2" ∧
    registerClass iso_env0 "X1" = .ok iso_envOne ∧
    registryGet iso_envOne "R2" "Impl" = .error .valueError := by
  refine ⟨?_, ?_, rfl, rfl, rfl, rfl, rfl⟩
  · intro env b n
    unfold registryGet
    cases hr : regRoot env b with
    | none => simp [hr]
    | some r =>
        cases hl : alookup (regNamespace env r) n with
        | none => simp [hr, hl]
        | some t =>
            by_cases hs : issub env t b
            · simp [hr, hl, hs]
            · simp [hr, hl, hs]
  · intro env b n r t hr hl hs
    unfold registryGet
    simp [hr, hl, hs]

/-- Witness for the hypothesis-bearing success case of C3: resolving
`("R1", "Impl")` in the two-namespace table returns `X1`. -/
theorem registry_get_spec_witness :
    registryGet iso_envBoth "R1" "Impl" = .ok "X1" :=
  registry_get_spec.2.1 iso_envBoth "R1" "Impl" "R1" "X1" (by decide) (by decide)
    (by decide)

theorem alookup_mem {β : Type} :
    ∀ {l : List (String × β)} {k : String} {v : β},
      alookup l k = some v → (k, v) ∈ l := by
  intro l
  induction l with
  | nil => intro k v h; simp [alookup] at h
  | cons p rest ih =>
      intro k v h
      rcases p with ⟨k2, v2⟩
      by_cases h2 : k2 = k
      · subst h2
        have he : alookup ((k2, v2) :: rest) k2 = some v2 := by simp [alookup]
        rw [he, Option.some.injEq] at h
        subst h
        exact List.mem_cons_self _ _
      · simp only [alookup, if_neg h2] at h
        exact List.mem_cons_of_mem _ (ih h)

/-- Invariant guaranteed by `_Registry._register` for every entry it ever
writes: an entry of the namespace of root `r` subclasses `r` and is not `r`
itself. -/
def RegistryWF (env : Env) : Prop :=
  ∀ q ∈ env.reg, ∀ p ∈ q.2, issub env p.2 q.1 ∧ p.2 ≠ q.1

instance (env : Env) : Decidable (RegistryWF env) := by
  unfold RegistryWF; infer_instance

/-- C4 (amended): for a well-formed registry, `registry.get_all` returns
exactly the registered types of the derived namespace which subclass the
requested base, excluding the requested base itself — not the namespace
root, which is never registered. -/
theorem registry_get_all_spec (env : Env) (b r : ClassId) (l : List ClassId)
    (hwf : RegistryWF env) (hr : regRoot env b = some r)
    (hl : registryGetAll env b = .ok l) (t : ClassId) :
    t ∈ l ↔
      ((∃ n, (n, t) ∈ regNamespace env r) ∧ issub env t b ∧ t ≠ b) := by
  unfold registryGetAll at hl
  unfold regRoot at hr
  by_cases hb : isBaseClass env b
  · rw [if_pos hb] at hl
    rw [if_pos hb, Option.some.injEq] at hr
    subst hr
    rw [Except.ok.injEq] at hl
    subst hl
    constructor
    · intro ht
      obtain ⟨p, hp, hpt⟩ := List.mem_map.mp ht
      have hreg : (b, regNamespace env b) ∈ env.reg := by
        unfold regNamespace at hp ⊢
        cases halk : alookup env.reg b with
        | none => rw [halk] at hp; simp at hp
        | some es => simp only [halk]; exact alookup_mem halk
      have hw := hwf _ hreg p hp
      subst hpt
      exact ⟨⟨p.1, hp⟩, hw.1, hw.2⟩
    · rintro ⟨⟨n, hn⟩, _, _⟩
      exact List.mem_map.mpr ⟨(n, t), hn, rfl⟩
  · rw [if_neg hb] at hl
    rw [if_neg hb] at hr
    rw [hr] at hl
    rw [Except.ok.injEq] at hl
    subst hl
    rw [List.mem_filter]
    rw [List.mem_map]
    constructor
    · rintro ⟨⟨p, hp, hpt⟩, hcond⟩
      rw [decide_eq_true_iff] at hcond
      subst hpt
      exact ⟨⟨p.1, hp⟩, hcond.1, hcond.2⟩
    · rintro ⟨⟨n, hn⟩, hsub, hne⟩
      exact ⟨⟨(n, t), hn, rfl⟩, by rw [decide_eq_true_iff]; exact ⟨hsub, hne⟩⟩

/-- Replaceable base `A` with registered implementation `A1` and registered
implementation `A1b` of `A1` itself. -/
def c4_env0 : Env :=
  { classes := markerRows ++
      [("A", mkC "A" ["ReplaceableBase"] ["A", "ReplaceableBase", "object"] [] [] false),
       ("A1", mkC "A1" ["A"] ["A1", "A", "ReplaceableBase", "object"] [] [] false),
       ("A1b", mkC "A1b" ["A1"] ["A1b", "A1", "A", "ReplaceableBase", "object"] [] [] false)]
    reg := [], warns := [] }

/-- `c4_env0` after registering `A1` and `A1b`. -/
def c4_reg : Except Err Env :=
  (registerClass c4_env0 "A1").bind (fun e => registerClass e "A1b")

/-- The registry contents those two registrations produce. -/
def c4_env : Env :=
  { c4_env0 with reg := [("A", [("A1", "A1"), ("A1b", "A1b")])] }

/-- Counterexample to C4 as stated: `A1` is registered in the namespace of
root `A`, is a subtype of the requested base `A1`, and is not the namespace
root, yet `registry.get_all(A1)` omits it — the code excludes the requested
base itself, not the namespace root. -/
theorem registry_get_all_counterexample :
    c4_reg = .ok c4_env ∧
    regRoot c4_env "A1" = some "A" ∧
    registryGetAll c4_env "A1" = .ok ["A1b"] ∧
    ("A1", ("A1" : ClassId)) ∈ regNamespace c4_env "A" ∧
    issub c4_env "A1" "A1" ∧
    ("A1" : ClassId) ≠ "A" ∧
    ("A1" : ClassId) ∉ (["A1b"] : List ClassId) := by
  exact ⟨rfl, rfl, rfl, by decide, by decide, by decide, by decide⟩

/-- Witness for C4's amended theorem at the concrete two-level registry. -/
theorem registry_get_all_spec_witness :
    ("A1b" : ClassId) ∈ (["A1b"] : List ClassId) ↔
      ((∃ n, (n, ("A1b" : ClassId)) ∈ regNamespace c4_env "A") ∧
        issub c4_env "A1b" "A1" ∧ ("A1b" : ClassId) ≠ "A1") :=
  registry_get_all_spec c4_env "A1" "A" ["A1b"] (by decide) (by decide) rfl "A1b"

theorem alookup_aset_self {β : Type} (l : List (String × β)) (k : String)
    (v : β) : alookup (aset l k v) k = some v := by
  induction l with
  | nil => simp [aset, alookup]
  | cons p rest ih =>
      rcases p with ⟨k2, v2⟩
      by_cases h : k2 = k
      · subst h; simp [aset, alookup]
      · simp [aset, alookup, h, ih]

/-- A second class object also named `"A2"`, subclassing `A`, with a changed
schema (`n : str = "2x"`, new field `p : int = 7`), defined after `B` was
sealed. -/
def c5_rowA2v2 : ClassInfo :=
  mkC "A2" ["A"] ["A2v2", "A", "ReplaceableBase", "object"]
    [("n", .pstr), ("p", .pint)]
    [("n", .dval (.vstr "2x")), ("p", .dval (.vint 7))] false

/-- Scenario A's table extended with the redefined `A2`, before any
registration. -/
def c5_env0 : Env :=
  { classes := scnA_env0.classes ++ [("A2v2", c5_rowA2v2)]
    reg := [], warns := [] }

/-- After registering the original `A1` and `A2`. -/
def c5_envReg : Env :=
  { c5_env0 with reg := [("A", [("A1", "A1"), ("A2", "A2")])] }

/-- After `get_default_args(B)` sealed Scenario A's classes (the redefined
`A2` still unprocessed and unregistered). -/
def c5_envSealed : Env :=
  { classes := scnA_envSealed.classes ++ [("A2v2", c5_rowA2v2)]
    reg := [("A", [("A1", "A1"), ("A2", "A2")])], warns := [] }

/-- After re-registering the redefined `A2`: the `("A", "A2")` entry now
points at the new class object, silently overwritten. -/
def c5_envStale : Env :=
  { c5_envSealed with reg := [("A", [("A1", "A1"), ("A2", "A2v2")])] }

/-- The redefined `A2` after being expanded during auto-creation. -/
def c5_rowA2v2Sealed : ClassInfo :=
  { c5_rowA2v2 with
    sealed := true
    fields := [("n", some (.dval (.vstr "2x"))), ("p", some (.dval (.vint 7)))]
    creation := some [], knownImpls := some [], processedMembers := some [] }

/-- The environment after constructing `B` against the stale registry: the
redefined `A2` got sealed and the staleness diagnostic was emitted. -/
def c5_envFinal : Env :=
  { classes := scnA_envSealed.classes ++ [("A2v2", c5_rowA2v2Sealed)]
    reg := [("A", [("A1", "A1"), ("A2", "A2v2")])]
    warns := ["New implementation of A2 is being chosen."] }

/-- The members of the `B` instance built against the stale registry. -/
def c5_instFields : List (String × RVal) :=
  [("a_class_type", .prim (.vstr "A2")),
   ("a_A1_args", .prim (.vdict [("m", .vint 3)])),
   ("a_A2_args", .prim (.vdict [("n", .vstr "2")])),
   ("a", .obj "A2v2" [("n", .prim (.vstr "2")), ("p", .prim (.vint 7))])]

set_option maxHeartbeats 2000000 in
/-- C5: registering under an already-used name in the same namespace
succeeds silently and overwrites the entry (last-write-wins, classes and
warnings untouched); and when a dependent class was sealed before the
re-registration, the next auto-creation emits the staleness warning — a
diagnostic, not an exception — and still constructs the member from the live
registry entry (the redefined class, here with its new field `p = 7`). -/
theorem register_overwrite_and_staleness :
    (∀ env c r, baseClassFromClass env c = some r → c ≠ r →
        registerClass env c = .ok (regSet env r (nameOf env c) c) ∧
        alookup (regNamespace (regSet env r (nameOf env c) c) r)
          (nameOf env c) = some c ∧
        (regSet env r (nameOf env c) c).classes = env.classes ∧
        (regSet env r (nameOf env c) c).warns = env.warns) ∧
    get_default_args 40 c5_envReg (.cls "B") [] =
      .ok (scnA_expected, c5_envSealed) ∧
    alookup (regNamespace c5_envSealed "A") "A2" = some "A2" ∧
    registerClass c5_envSealed "A2v2" = .ok c5_envStale ∧
    alookup (regNamespace c5_envStale "A") "A2" = some "A2v2" ∧
    c5_envStale.warns = [] ∧
    construct 40 c5_envStale "B"
        [("a_class_type", .vstr "A2"), ("a_A1_args", .vdict [("m", .vint 3)]),
         ("a_A2_args", .vdict [("n", .vstr "2")])] =
      .ok (.obj "B" c5_instFields, c5_envFinal) ∧
    c5_envFinal.warns = ["New implementation of A2 is being chosen."] ∧
    alookup c5_instFields "a" =
      some (.obj "A2v2" [("n", .prim (.vstr "2")), ("p", .prim (.vint 7))]) := by
  refine ⟨?_, rfl, rfl, rfl, rfl, rfl, rfl, rfl, rfl⟩
  intro env c r h1 h2
  refine ⟨?_, ?_, rfl, rfl⟩
  · unfold registerClass
    simp [h1, h2]
  · unfold regSet regNamespace
    simp [alookup_aset_self]

/-- Witness for C5's general overwrite statement: registering `X1` into a
fresh two-namespace table. -/
theorem register_overwrite_witness :
    registerClass iso_env0 "X1" =
      .ok (regSet iso_env0 "R1" (nameOf iso_env0 "X1") "X1") ∧
    alookup (regNamespace (regSet iso_env0 "R1" (nameOf iso_env0 "X1") "X1") "R1")
      (nameOf iso_env0 "X1") = some "X1" ∧
    (regSet iso_env0 "R1" (nameOf iso_env0 "X1") "X1").classes = iso_env0.classes ∧
    (regSet iso_env0 "R1" (nameOf iso_env0 "X1") "X1").warns = iso_env0.warns :=
  register_overwrite_and_staleness.1 iso_env0 "X1" "R1" (by decide) (by decide)

/-- A Configurable class declaring a member of its own type. -/
def c6_self_env : Env :=
  { classes := markerRows ++
      [("Bself", mkC "Bself" ["Configurable"] ["Bself", "Configurable", "object"]
         [("b", .pclassRef "Bself")] [] false)]
    reg := [], warns := [] }

/-- Two Configurable classes declaring members of each other's type. -/
def c6_mut_env : Env :=
  { classes := markerRows ++
      [("M", mkC "M" ["Configurable"] ["M", "Configurable", "object"]
         [("c", .pclassRef "N")] [] false),
       ("N", mkC "N" ["Configurable"] ["N", "Configurable", "object"]
         [("b", .pclassRef "M")] [] false)]
    reg := [], warns := [] }

/-- A replaceable base `R` declaring a member of its own (pluggable) type,
with one registered implementation `R1`. -/
def c6_plug_env : Env :=
  { classes := markerRows ++
      [("R", mkC "R" ["ReplaceableBase"] ["R", "ReplaceableBase", "object"]
         [("rr", .pclassRef "R")] [] false),
       ("R1", mkC "R1" ["R"] ["R1", "R", "ReplaceableBase", "object"] [] [] false)]
    reg := [("R", [("R1", "R1")])], warns := [] }

def exceptIsOk {α : Type} : Except Err α → Bool
  | .ok _ => true
  | .error _ => false

/-- The projection of the expansion result used by the C6 theorems. -/
def c6_plug_proj : Option (Bool × List (String × PyType) × List String) :=
  match expand_args_fields 10 c6_plug_env "R" [] with
  | .ok e => some (sealedOf e "R", annsOf e "R", creationOf e "R")
  | .error _ => none

/-- C6 (amended): cycle detection raises for fixed members only. Requesting
`get_default_args` of a configurable class already mid-expansion (in the
`_do_not_process` set) raises a ValueError; a Configurable class declaring a
fixed member of its own type raises a ValueError during expansion; a
transitive fixed cycle through nested configurable members raises a
ValueError when the default tree is built; but a replaceable base declaring
a pluggable member of its own type expands without error — its own
implementations are silently skipped, so only the `_class_type` selector
field is generated. -/
theorem cycle_detection_spec :
    (∀ fuel env c dnp, isConfigurableClass env c → c ∈ dnp →
        get_default_args (fuel + 1) env (.cls c) dnp = .error .valueError) ∧
    expand_args_fields 10 c6_self_env "Bself" [] = .error .valueError ∧
    get_default_args 40 c6_self_env (.cls "Bself") [] = .error .valueError ∧
    get_default_args 40 c6_mut_env (.cls "M") [] = .error .valueError ∧
    c6_plug_proj =
      some (true, [("rr_class_type", .pstr)], ["create_rr"]) := by
  refine ⟨?_, rfl, rfl, rfl, rfl⟩
  intro fuel env c dnp h1 h2
  simp only [get_default_args, h1, h2, if_true, if_pos]
  rfl

/-- Witness for C6's general mid-expansion statement: `get_default_args` of
`M` while `M` is in the do-not-process set raises. -/
theorem cycle_detection_spec_witness :
    get_default_args 40 c6_mut_env (.cls "M") ["M"] = .error .valueError :=
  cycle_detection_spec.1 39 c6_mut_env "M" ["M"] (by decide) (by decide)

/-- Counterexample to C6 as stated: the replaceable base `R` declares the
member `rr` of its own type, yet expanding it does not raise — the claim
says every class declaring a member of its own type raises a configuration
error. -/
theorem cycle_detection_counterexample :
    exceptIsOk (expand_args_fields 10 c6_plug_env "R" []) = true ∧
    alookup (annsOf c6_plug_env "R") "rr" = some (.pclassRef "R") := by
  exact ⟨rfl, rfl⟩

theorem classifyMember_some (env : Env) (p : String × PyType) (name : String)
    (t : ClassId) (pl : Bool) :
    classifyMember env p = some (name, t, pl) ↔
      (p = (name, PyType.pclassRef t) ∧
        ((pl = true ∧
            (issub env t "ReplaceableBase" ∧ "ReplaceableBase" ∈ basesOf env t)) ∨
         (pl = false ∧
            ¬(issub env t "ReplaceableBase" ∧ "ReplaceableBase" ∈ basesOf env t) ∧
            issub env t "Configurable"))) := by
  rcases p with ⟨pn, pt⟩
  cases pt with
  | pclassRef u =>
      by_cases h1 : issub env u "ReplaceableBase" ∧ "ReplaceableBase" ∈ basesOf env u
      · simp only [classifyMember, if_pos h1]
        constructor
        · intro h
          rw [Option.some.injEq] at h
          rw [Prod.ext_iff, Prod.ext_iff] at h
          obtain ⟨hn, hu, hp⟩ := h
          simp only at hn hu hp
          subst hn; subst hu; subst hp
          exact ⟨rfl, Or.inl ⟨rfl, h1⟩⟩
        · rintro ⟨hp, hcase⟩
          rw [Prod.ext_iff] at hp
          obtain ⟨hn, hu⟩ := hp
          simp only [PyType.pclassRef.injEq] at hn hu
          subst hn; subst hu
          rcases hcase with ⟨hpl, _⟩ | ⟨hpl, hnc, _⟩
          · subst hpl; rfl
          · exact absurd h1 hnc
      · simp only [classifyMember, if_neg h1]
        by_cases h2 : issub env u "Configurable"
        · simp only [if_pos h2]
          constructor
          · intro h
            rw [Option.some.injEq] at h
            rw [Prod.ext_iff, Prod.ext_iff] at h
            obtain ⟨hn, hu, hp⟩ := h
            simp only at hn hu hp
            subst hn; subst hu; subst hp
            exact ⟨rfl, Or.inr ⟨rfl, h1, h2⟩⟩
          · rintro ⟨hp, hcase⟩
            rw [Prod.ext_iff] at hp
            obtain ⟨hn, hu⟩ := hp
            simp only [PyType.pclassRef.injEq] at hn hu
            subst hn; subst hu
            rcases hcase with ⟨hpl, hc⟩ | ⟨hpl, _, _⟩
            · exact absurd hc h1
            · subst hpl; rfl
        · simp only [if_neg h2]
          constructor
          · intro h; exact absurd h (by simp)
          · rintro ⟨hp, hcase⟩
            rw [Prod.ext_iff] at hp
            obtain ⟨hn, hu⟩ := hp
            simp only [PyType.pclassRef.injEq] at hn hu
            subst hn; subst hu
            rcases hcase with ⟨_, hc⟩ | ⟨_, _, hc⟩
            · exact absurd hc h1
            · exact absurd hc h2
  | pint => simp [classifyMember]
  | pstr => simp [classifyMember]
  | pbool => simp [classifyMember]
  | pdictConfig => simp [classifyMember]
  | pother => simp [classifyMember]

/-- Replaceable base `A` with registered implementation `A1 (m = 3)`, a
fixed-configurable `C0 (k = 1)`, and `E(Configurable)` declaring a fixed
member `f : C0`, a pluggable member `p : A` and a member `x : A1` whose
declared type is a non-direct subclass of ReplaceableBase. -/
def c7_env : Env :=
  { classes := markerRows ++
      [("A", mkC "A" ["ReplaceableBase"] ["A", "ReplaceableBase", "object"] [] [] false),
       ("A1", mkC "A1" ["A"] ["A1", "A", "ReplaceableBase", "object"]
          [("m", .pint)] [("m", .dval (.vint 3))] false),
       ("C0", mkC "C0" ["Configurable"] ["C0", "Configurable", "object"]
          [("k", .pint)] [("k", .dval (.vint 1))] false),
       ("E", mkC "E" ["Configurable"] ["E", "Configurable", "object"]
          [("f", .pclassRef "C0"), ("p", .pclassRef "A"), ("x", .pclassRef "A1")]
          [] false)]
    reg := [("A", [("A1", "A1")])], warns := [] }

/-- The row the expansion of `E` produces: `f` replaced by `f_args` and
`create_f`; `p` replaced by `p_class_type`, `p_A1_args` and `create_p`;
`x` untouched. -/
def c7_expandedE : ClassInfo :=
  { name := "E", bases := ["Configurable"], mro := ["E", "Configurable", "object"],
    anns := [("x", .pclassRef "A1"), ("f_args", .pdictConfig),
             ("p_class_type", .pstr), ("p_A1_args", .pdictConfig)],
    attrs := [("f_args", .dfactory "C0" ["E"]),
              ("p_class_type", .dval (.vstr "UNDEFAULTED")),
              ("p_A1_args", .dfactory "A1" ["E"])],
    createFns := [("create_f", .defaultCreate "f" "C0" false),
                  ("create_p", .defaultCreate "p" "A" true)],
    callsAuto := false, sealed := true,
    fields := [("x", none), ("f_args", some (.dfactory "C0" ["E"])),
               ("p_class_type", some (.dval (.vstr "UNDEFAULTED"))),
               ("p_A1_args", some (.dfactory "A1" ["E"]))],
    creation := some ["create_f", "create_p"],
    knownImpls := some [("A1", "A1")],
    processedMembers := some ["f", "p"] }

def c7_projE : Option ClassInfo :=
  match expand_args_fields 20 c7_env "E" [] with
  | .ok e => lookupInfo e "E"
  | .error _ => none

/-- Table with `D(Configurable)` declaring only `x : A1`, `A1` being a
non-direct subclass of the replaceable base `A`. -/
def c7d_env : Env :=
  { classes := markerRows ++
      [("A", mkC "A" ["ReplaceableBase"] ["A", "ReplaceableBase", "object"] [] [] false),
       ("A1", mkC "A1" ["A"] ["A1", "A", "ReplaceableBase", "object"]
          [("m", .pint)] [("m", .dval (.vint 3))] false),
       ("D", mkC "D" ["Configurable"] ["D", "Configurable", "object"]
          [("x", .pclassRef "A1")] [] false)]
    reg := [], warns := [] }

/-- The row the expansion of `D` produces: `x` left untouched, nothing
generated. -/
def c7_expandedD : ClassInfo :=
  { name := "D", bases := ["Configurable"], mro := ["D", "Configurable", "object"],
    anns := [("x", .pclassRef "A1")], attrs := [], createFns := [],
    callsAuto := false, sealed := true, fields := [("x", none)],
    creation := some [], knownImpls := some [], processedMembers := some [] }

def c7_projD : Option ClassInfo :=
  match expand_args_fields 20 c7d_env "D" [] with
  | .ok e => lookupInfo e "D"
  | .error _ => none

/-- C7 (amended): a member is picked up for processing as Pluggable exactly
when its declared type subclasses ReplaceableBase and is a direct child of
it, and as Fixed exactly when its declared type is not such a direct child
but subclasses Configurable; a member whose declared type is a non-direct
subclass of ReplaceableBase that does not subclass Configurable is skipped
(left as an ordinary field). For processed members the generation rules
hold: Fixed `f` is replaced by `f_args` plus `create_f`; pluggable `p` is
replaced by `p_class_type`, one `p_<ImplName>_args` per registered
implementation, plus `create_p`, as shown on the concrete class `E`. -/
theorem member_classification_spec :
    (∀ env anns name t,
        (name, t, true) ∈ toProcess env anns ↔
          ((name, PyType.pclassRef t) ∈ anns ∧
            issub env t "ReplaceableBase" ∧ "ReplaceableBase" ∈ basesOf env t)) ∧
    (∀ env anns name t,
        (name, t, false) ∈ toProcess env anns ↔
          ((name, PyType.pclassRef t) ∈ anns ∧
            ¬(issub env t "ReplaceableBase" ∧ "ReplaceableBase" ∈ basesOf env t) ∧
            issub env t "Configurable")) ∧
    c7_projE = some c7_expandedE ∧
    c7_projD = some c7_expandedD := by
  refine ⟨?_, ?_, rfl, rfl⟩
  · intro env anns name t
    rw [toProcess, List.mem_filterMap]
    constructor
    · rintro ⟨p, hp, hc⟩
      rw [classifyMember_some] at hc
      obtain ⟨hpe, hcase⟩ := hc
      subst hpe
      rcases hcase with ⟨_, hcond⟩ | ⟨hfalse, _⟩
      · exact ⟨hp, hcond⟩
      · exact absurd hfalse (by simp)
    · rintro ⟨hmem, hcond⟩
      refine ⟨(name, .pclassRef t), hmem, ?_⟩
      rw [classifyMember_some]
      exact ⟨rfl, Or.inl ⟨rfl, hcond⟩⟩
  · intro env anns name t
    rw [toProcess, List.mem_filterMap]
    constructor
    · rintro ⟨p, hp, hc⟩
      rw [classifyMember_some] at hc
      obtain ⟨hpe, hcase⟩ := hc
      subst hpe
      rcases hcase with ⟨hfalse, _⟩ | ⟨_, hnc, hconf⟩
      · exact absurd hfalse (by simp)
      · exact ⟨hp, hnc, hconf⟩
    · rintro ⟨hmem, hnc, hconf⟩
      refine ⟨(name, .pclassRef t), hmem, ?_⟩
      rw [classifyMember_some]
      exact ⟨rfl, Or.inr ⟨rfl, hnc, hconf⟩⟩

/-- Witness instantiating C7's pluggable-classification statement on the
member `p : A` of `E`. -/
theorem member_classification_spec_witness :
    ("p", ("A" : ClassId), true) ∈ toProcess c7_env (annsOf c7_env "E") ↔
      (("p", PyType.pclassRef "A") ∈ annsOf c7_env "E" ∧
        issub c7_env "A" "ReplaceableBase" ∧
        "ReplaceableBase" ∈ basesOf c7_env "A") :=
  member_classification_spec.1 c7_env (annsOf c7_env "E") "p" "A"

/-- Counterexample to C7 as stated: the declared type `A1` of member `x` is
a marker type (a subclass of ReplaceableBase) but not a direct child, so the
claim classifies it as Fixed and requires `x_args` plus `create_x`; the code
instead skips the member entirely — after expansion `x` is still an ordinary
annotation, no `x_args` field exists and no creation step was generated. -/
theorem member_classification_counterexample :
    issub c7d_env "A1" "ReplaceableBase" ∧
    ¬ ("ReplaceableBase" ∈ basesOf c7d_env "A1") ∧
    c7_projD = some c7_expandedD ∧
    alookup c7_expandedD.anns "x" = some (.pclassRef "A1") ∧
    alookup c7_expandedD.fields "x_args" = none ∧
    c7_expandedD.creation = some [] := by
  exact ⟨by decide, by decide, rfl, rfl, rfl, rfl⟩

theorem delLoop_spec (pre expect : String) :
    ∀ (ak cur cur2 : List String), delLoop pre expect ak cur = .ok cur2 →
      cur.Nodup →
      (cur2.Nodup ∧ ∀ x, x ∈ cur2 ↔
        (x ∈ cur ∧
          ¬(x ∈ ak ∧ strStartsWith x pre = true ∧ x ≠ expect))) := by
  intro ak
  induction ak with
  | nil =>
      intro cur cur2 h hnd
      simp only [delLoop, Except.ok.injEq] at h
      subst h
      exact ⟨hnd, by simp⟩
  | cons k rest ih =>
      intro cur cur2 h hnd
      by_cases hc : strStartsWith k pre = true ∧ ¬(k = expect)
      · rw [delLoop, if_pos hc] at h
        by_cases hm : k ∈ cur
        · rw [if_pos hm] at h
          obtain ⟨hnd2, hiff⟩ := ih (cur.erase k) cur2 h (hnd.erase k)
          refine ⟨hnd2, fun x => ?_⟩
          rw [hiff x]
          constructor
          · rintro ⟨hxe, hnot⟩
            have hxk : x ≠ k := by
              intro he; subst he; exact hnd.not_mem_erase hxe
            refine ⟨List.mem_of_mem_erase hxe, ?_⟩
            rintro ⟨hmem, hsw, hne⟩
            rcases List.mem_cons.mp hmem with he | hmem2
            · exact hxk he
            · exact hnot ⟨hmem2, hsw, hne⟩
          · rintro ⟨hx, hnot⟩
            have hxk : x ≠ k := by
              intro he; subst he
              exact hnot ⟨List.mem_cons_self _ _, hc.1, hc.2⟩
            refine ⟨(List.mem_erase_of_ne hxk).mpr hx, ?_⟩
            rintro ⟨hmem, hsw, hne⟩
            exact hnot ⟨List.mem_cons_of_mem _ hmem, hsw, hne⟩
        · rw [if_neg hm] at h
          exact absurd h (by simp)
      · rw [delLoop, if_neg hc] at h
        obtain ⟨hnd2, hiff⟩ := ih cur cur2 h hnd
        refine ⟨hnd2, fun x => ?_⟩
        rw [hiff x]
        constructor
        · rintro ⟨hx, hnot⟩
          refine ⟨hx, ?_⟩
          rintro ⟨hmem, hsw, hne⟩
          rcases List.mem_cons.mp hmem with he | hmem2
          · subst he; exact hc ⟨hsw, hne⟩
          · exact hnot ⟨hmem2, hsw, hne⟩
        · rintro ⟨hx, hnot⟩
          refine ⟨hx, ?_⟩
          rintro ⟨hmem, hsw, hne⟩
          exact hnot ⟨List.mem_cons_of_mem _ hmem, hsw, hne⟩

theorem replLoop_spec (entries : List (String × Val)) (ak : List String) :
    ∀ (rs cur cur2 : List String), replLoop entries ak rs cur = .ok cur2 →
      cur.Nodup →
      (cur2.Nodup ∧ ∀ x, x ∈ cur2 ↔
        (x ∈ cur ∧
          ∀ r ∈ rs, ∀ s, alookup entries (r ++ TYPE_SUFFIX) = some (.vstr s) →
            ¬(x ∈ ak ∧ strStartsWith x (r ++ "_") = true ∧
              x ≠ r ++ "_" ++ s ++ ARGS_SUFFIX))) := by
  intro rs
  induction rs with
  | nil =>
      intro cur cur2 h hnd
      simp only [replLoop, Except.ok.injEq] at h
      subst h
      exact ⟨hnd, by simp⟩
  | cons r rest ih =>
      intro cur cur2 h hnd
      rw [replLoop] at h
      split at h
      all_goals try (exact absurd h (by simp))
      rename_i s hsel
      cases hd : delLoop (r ++ "_") (r ++ "_" ++ s ++ ARGS_SUFFIX) ak cur with
      | error e =>
          rw [hd] at h
          exact absurd h (by simp [Bind.bind, Except.bind])
      | ok cur1 =>
          rw [hd] at h
          simp only [Bind.bind, Except.bind] at h
          obtain ⟨hnd1, hiff1⟩ := delLoop_spec _ _ ak cur cur1 hd hnd
          obtain ⟨hnd2, hiff2⟩ := ih cur1 cur2 h hnd1
          refine ⟨hnd2, fun x => ?_⟩
          rw [hiff2 x, hiff1 x]
          constructor
          · rintro ⟨⟨hx, hnot1⟩, hnot2⟩
            refine ⟨hx, ?_⟩
            intro r2 hr2 s2 hsel2
            rcases List.mem_cons.mp hr2 with he | hmem
            · subst he
              rw [hsel, Option.some.injEq, Val.vstr.injEq] at hsel2
              subst hsel2
              exact hnot1
            · exact hnot2 r2 hmem s2 hsel2
          · rintro ⟨hx, hall⟩
            refine ⟨⟨hx, hall r (List.mem_cons_self _ _) s hsel⟩, ?_⟩
            intro r2 hmem s2 hsel2
            exact hall r2 (List.mem_cons_of_mem _ hmem) s2 hsel2

theorem surviving_spec (es : List (String × Val)) (keep : List String)
    (h : surviving es = .ok keep) (hnd : (es.map Prod.fst).Nodup) :
    keep.Nodup ∧ ∀ x, x ∈ keep ↔
      (x ∈ es.map Prod.fst ∧
        ∀ r ∈ (es.map Prod.fst).filterMap stripType,
          ∀ s, alookup es (r ++ TYPE_SUFFIX) = some (.vstr s) →
            ¬(x ∈ (es.map Prod.fst).filter (fun k => strEndsWith k ARGS_SUFFIX) ∧
              strStartsWith x (r ++ "_") = true ∧
              x ≠ r ++ "_" ++ s ++ ARGS_SUFFIX)) := by
  unfold surviving at h
  exact replLoop_spec es _ _ _ keep h hnd

theorem pruneEntries_spec :
    ∀ (es : List (String × Val)) (keep : List String)
      (es2 : List (String × Val)), pruneEntries es keep = .ok es2 →
      ((∀ k w, (k, w) ∈ es2 →
          k ∈ keep ∧ ∃ v, (k, v) ∈ es ∧ remove_unused_components v = .ok w) ∧
       (∀ k, k ∈ es2.map Prod.fst ↔ (k ∈ es.map Prod.fst ∧ k ∈ keep))) := by
  intro es
  induction es with
  | nil =>
      intro keep es2 h
      simp only [pruneEntries, Except.ok.injEq] at h
      subst h
      exact ⟨by simp, by simp⟩
  | cons p rest ih =>
      intro keep es2 h
      rcases p with ⟨k, v⟩
      by_cases hk : k ∈ keep
      · rw [pruneEntries, if_pos hk] at h
        cases hv : remove_unused_components v with
        | error e => rw [hv] at h; exact absurd h (by simp [Bind.bind, Except.bind])
        | ok w =>
            rw [hv] at h
            cases hr : pruneEntries rest keep with
            | error e =>
                rw [hr] at h
                exact absurd h (by simp [Bind.bind, Except.bind])
            | ok rest2 =>
                rw [hr] at h
                simp only [Bind.bind, Except.bind, Except.ok.injEq] at h
                subst h
                obtain ⟨ih1, ih2⟩ := ih keep rest2 hr
                constructor
                · intro k2 w2 hmem
                  rcases List.mem_cons.mp hmem with he | hmem2
                  · rw [Prod.ext_iff] at he
                    obtain ⟨he1, he2⟩ := he
                    simp only at he1 he2
                    subst he1; subst he2
                    exact ⟨hk, v, List.mem_cons_self _ _, hv⟩
                  · obtain ⟨hik, v0, hv0, hrm⟩ := ih1 k2 w2 hmem2
                    exact ⟨hik, v0, List.mem_cons_of_mem _ hv0, hrm⟩
                · intro k2
                  simp only [List.map_cons, List.mem_cons]
                  rw [ih2 k2]
                  constructor
                  · rintro (he | ⟨hm, hkp⟩)
                    · subst he; exact ⟨Or.inl rfl, hk⟩
                    · exact ⟨Or.inr hm, hkp⟩
                  · rintro ⟨he | hm, hkp⟩
                    · exact Or.inl he
                    · exact Or.inr ⟨hm, hkp⟩
      · rw [pruneEntries, if_neg hk] at h
        obtain ⟨ih1, ih2⟩ := ih keep es2 h
        constructor
        · intro k2 w2 hmem
          obtain ⟨hik, v0, hv0, hrm⟩ := ih1 k2 w2 hmem
          exact ⟨hik, v0, List.mem_cons_of_mem _ hv0, hrm⟩
        · intro k2
          rw [ih2 k2]
          simp only [List.map_cons, List.mem_cons]
          constructor
          · rintro ⟨hm, hkp⟩; exact ⟨Or.inr hm, hkp⟩
          · rintro ⟨he | hm, hkp⟩
            · subst he; exact absurd hkp hk
            · exact ⟨hm, hkp⟩

/-- C8: pruner postcondition. On a tree with distinct keys, whenever
`remove_unused_components` completes: (1) for every key whose name is
`<m>_class_type` with string value `v`, every sibling key ending in `_args`
that starts with `<m>_` other than `<m>_<v>_args` has been deleted; (2) a
key matching no such member's deletion pattern survives; (3) every surviving
entry existed before with the recursion applied to its value (so pruning
recurses into every remaining nested subtree, and nothing is added). -/
theorem remove_unused_components_spec (es es2 : List (String × Val))
    (hnd : (es.map Prod.fst).Nodup)
    (h : remove_unused_components (.vdict es) = .ok (.vdict es2)) :
    (∀ k m v, k ∈ es.map Prod.fst → stripType k = some m →
       alookup es (m ++ TYPE_SUFFIX) = some (.vstr v) →
       ∀ k2, k2 ∈ es.map Prod.fst → strEndsWith k2 ARGS_SUFFIX = true →
         strStartsWith k2 (m ++ "_") = true →
         k2 ≠ m ++ "_" ++ v ++ ARGS_SUFFIX → k2 ∉ es2.map Prod.fst) ∧
    (∀ k2, k2 ∈ es.map Prod.fst →
       (∀ k m v, k ∈ es.map Prod.fst → stripType k = some m →
          alookup es (m ++ TYPE_SUFFIX) = some (.vstr v) →
          ¬(strEndsWith k2 ARGS_SUFFIX = true ∧
            strStartsWith k2 (m ++ "_") = true ∧
            k2 ≠ m ++ "_" ++ v ++ ARGS_SUFFIX)) →
       k2 ∈ es2.map Prod.fst) ∧
    (∀ k2 w, (k2, w) ∈ es2 →
       ∃ v0, (k2, v0) ∈ es ∧ remove_unused_components v0 = .ok w) := by
  rw [remove_unused_components] at h
  cases hs : surviving es with
  | error e => rw [hs] at h; exact absurd h (by simp [Bind.bind, Except.bind])
  | ok keep =>
      rw [hs] at h
      simp only [Bind.bind, Except.bind] at h
      split at h
      case _ e hp => exact absurd h (by simp)
      case _ es2b hp =>
          simp only [Except.ok.injEq, Val.vdict.injEq] at h
          subst h
          obtain ⟨_, hkeep⟩ := surviving_spec es keep hs hnd
          obtain ⟨hpr1, hpr2⟩ := pruneEntries_spec es keep es2b hp
          refine ⟨?_, ?_, ?_⟩
          · intro k m v hk hstrip hsel k2 hk2 hend hsw hne hmem2
            have hinkeep : k2 ∈ keep := ((hpr2 k2).mp hmem2).2
            have hcond := ((hkeep k2).mp hinkeep).2
            have hr : m ∈ (es.map Prod.fst).filterMap stripType :=
              List.mem_filterMap.mpr ⟨k, hk, hstrip⟩
            refine hcond m hr v hsel ⟨?_, hsw, hne⟩
            exact List.mem_filter.mpr ⟨hk2, hend⟩
          · intro k2 hk2 hno
            refine (hpr2 k2).mpr ⟨hk2, (hkeep k2).mpr ⟨hk2, ?_⟩⟩
            intro r hr s hsel
            obtain ⟨k, hk, hstrip⟩ := List.mem_filterMap.mp hr
            rintro ⟨hargs, hsw, hne⟩
            have hend := (List.mem_filter.mp hargs).2
            exact hno k r s hk hstrip hsel ⟨hend, hsw, hne⟩
          · intro k2 w hmem
            obtain ⟨_, v0, hv0, hrm⟩ := hpr1 k2 w hmem
            exact ⟨v0, hv0, hrm⟩

/-- Witness for C8 on the Scenario A tree: the member is `a` with selected
implementation `"A2"`, and the sibling `a_A1_args` is indeed deleted. -/
theorem remove_unused_components_spec_witness :
    "a_A1_args" ∉
      ([("a_class_type", Val.vstr "A2"),
        ("a_A2_args", Val.vdict [("n", Val.vstr "2")])].map Prod.fst) :=
  (remove_unused_components_spec
      [("a_class_type", .vstr "A2"),
       ("a_A1_args", .vdict [("m", .vint 3)]),
       ("a_A2_args", .vdict [("n", .vstr "2")])]
      [("a_class_type", .vstr "A2"),
       ("a_A2_args", .vdict [("n", .vstr "2")])]
      (by decide) rfl).1
    "a_class_type" "a" "A2" (by decide) (by decide) rfl
    "a_A1_args" (by decide) (by decide) (by decide) (by decide)

/-- Environment transition preserving every class that was already sealed. -/
def Preserves (a b : Env) : Prop :=
  ∀ c, sealedOf a c = true → lookupInfo b c = lookupInfo a c

theorem preserves_refl (a : Env) : Preserves a a := fun _ _ => rfl

theorem preserves_trans {a b c : Env} (h1 : Preserves a b) (h2 : Preserves b c) :
    Preserves a c := by
  intro x hx
  have hb := h1 x hx
  have hbx : sealedOf b x = true := by
    unfold sealedOf at hx ⊢
    rw [hb]
    exact hx
  exact (h2 x hbx).trans hb

theorem lookupInfo_updateClass_ne (env : Env) (c : ClassId)
    (f : ClassInfo → ClassInfo) (c2 : ClassId) (h : c2 ≠ c) :
    lookupInfo (updateClass env c f) c2 = lookupInfo env c2 := by
  unfold lookupInfo updateClass
  show alookup (env.classes.map fun p => if p.1 = c then (p.1, f p.2) else p) c2 =
    alookup env.classes c2
  induction env.classes with
  | nil => rfl
  | cons p rest ih =>
      rcases p with ⟨k, v⟩
      simp only [List.map_cons]
      by_cases hp : k = c
      · rw [if_pos hp]
        have hk2 : ¬(k = c2) := by rw [hp]; exact fun he => h he.symm
        simp only [alookup, if_neg hk2]
        exact ih
      · rw [if_neg hp]
        simp only [alookup]
        by_cases hp2 : k = c2
        · rw [if_pos hp2, if_pos hp2]
        · rw [if_neg hp2, if_neg hp2]; exact ih

theorem lookupInfo_foldl_addWarn (l : List String) :
    ∀ (env : Env) (f : String → String) (c2 : ClassId),
      lookupInfo (l.foldl (fun e k => addWarn e (f k)) env) c2 =
        lookupInfo env c2 := by
  induction l with
  | nil => intro env f c2; rfl
  | cons k rest ih => intro env f c2; exact ih (addWarn env (f k)) f c2

theorem sealAndRecord_lookup_ne (env : Env) (c : ClassId) (acc : Acc)
    (env2 : Env) (h : sealAndRecord env c acc = .ok env2) (x : ClassId)
    (hx : x ≠ c) : lookupInfo env2 x = lookupInfo env x := by
  unfold sealAndRecord at h
  dsimp only [] at h
  split at h
  · rw [Except.ok.injEq] at h
    subst h
    rw [lookupInfo_updateClass_ne _ _ _ _ hx,
        lookupInfo_updateClass_ne _ _ _ _ hx]
    exact lookupInfo_foldl_addWarn _ env _ x
  · exact absurd h (by simp)

theorem processImpls_lookup_ne (c : ClassId) (memberName : String)
    (dnp : List ClassId) :
    ∀ (impls : List ClassId) (env : Env) (known : List (String × ClassId))
      (env2 : Env) (known2 : List (String × ClassId)),
      processImpls c memberName dnp env known impls = .ok (env2, known2) →
      ∀ x, x ≠ c → lookupInfo env2 x = lookupInfo env x := by
  intro impls
  induction impls with
  | nil =>
      intro env known env2 known2 h x hx
      simp only [processImpls, Except.ok.injEq, Prod.ext_iff] at h
      obtain ⟨h1, _⟩ := h
      rw [h1]
  | cons d rest ih =>
      intro env known env2 known2 h x hx
      rw [processImpls] at h
      by_cases hd : d ∈ dnp
      · rw [if_pos hd] at h
        exact ih env known env2 known2 h x hx
      · rw [if_neg hd] at h
        by_cases hsub : issub env d c
        · rw [if_pos hsub] at h
          exact ih env known env2 known2 h x hx
        · rw [if_neg hsub] at h
          dsimp only [] at h
          split at h
          · exact absurd h (by simp)
          · have := ih _ _ env2 known2 h x hx
            rw [this, lookupInfo_updateClass_ne _ _ _ _ hx]

theorem addClassTypeField_lookup_ne (env : Env) (c : ClassId)
    (memberName : String) (x : ClassId) (hx : x ≠ c) :
    lookupInfo (addClassTypeField env c memberName) x = lookupInfo env x := by
  unfold addClassTypeField
  dsimp only []
  split
  · rfl
  · exact lookupInfo_updateClass_ne _ _ _ _ hx

theorem addCreateFn_lookup_ne (env : Env) (c : ClassId) (memberName : String)
    (t : ClassId) (pluggable : Bool) (x : ClassId) (hx : x ≠ c) :
    lookupInfo (addCreateFn env c memberName t pluggable) x =
      lookupInfo env x := by
  unfold addCreateFn
  dsimp only []
  split
  · rfl
  · exact lookupInfo_updateClass_ne _ _ _ _ hx

theorem fixedMemberUpdate_lookup_ne (env : Env) (c : ClassId)
    (dnp : List ClassId) (memberName : String) (t : ClassId) (env2 : Env)
    (h : fixedMemberUpdate env c dnp memberName t = .ok env2) (x : ClassId)
    (hx : x ≠ c) : lookupInfo env2 x = lookupInfo env x := by
  unfold fixedMemberUpdate at h
  dsimp only [] at h
  split at h
  · exact absurd h (by simp)
  · split at h
    · exact absurd h (by simp)
    · rw [Except.ok.injEq] at h
      subst h
      exact lookupInfo_updateClass_ne _ _ _ _ hx

theorem bind_eq_ok {α β : Type} {m : Except Err α} {f : α → Except Err β}
    {b : β} (h : m >>= f = .ok b) : ∃ a, m = .ok a ∧ f a = .ok b := by
  cases m with
  | error e => exact absurd h (by simp [Bind.bind, Except.bind])
  | ok a => exact ⟨a, rfl, h⟩

theorem processMember_lookup_ne (env : Env) (c : ClassId) (dnp : List ClassId)
    (known : List (String × ClassId)) (m : String × ClassId × Bool)
    (env2 : Env) (known2 : List (String × ClassId))
    (h : processMember env c dnp known m = .ok (env2, known2)) :
    ∀ x, x ≠ c → lookupInfo env2 x = lookupInfo env x := by
  intro x hx
  rcases m with ⟨memberName, t, pluggable⟩
  unfold processMember at h
  dsimp only [] at h
  cases pluggable with
  | true =>
      rw [if_pos rfl] at h
      obtain ⟨impls, hr, h2⟩ := bind_eq_ok h
      obtain ⟨q, hpi, h3⟩ := bind_eq_ok h2
      rcases q with ⟨e4, kn4⟩
      simp only [pure, Except.pure, Except.ok.injEq, Prod.mk.injEq] at h3
      obtain ⟨h1, _⟩ := h3
      rw [← h1]
      rw [addCreateFn_lookup_ne _ _ _ _ _ x hx]
      rw [processImpls_lookup_ne c memberName dnp impls _ known e4 kn4 hpi x hx]
      rw [addClassTypeField_lookup_ne _ _ _ x hx]
      exact lookupInfo_updateClass_ne _ _ _ _ hx
  | false =>
      rw [if_neg Bool.false_ne_true] at h
      obtain ⟨e3, hf, h2⟩ := bind_eq_ok h
      obtain ⟨q, hq, h3⟩ := bind_eq_ok h2
      rcases q with ⟨e4, kn4⟩
      simp only [pure, Except.pure, Except.ok.injEq, Prod.mk.injEq] at h3 hq
      obtain ⟨h1, _⟩ := h3
      obtain ⟨hq1, _⟩ := hq
      rw [← h1, ← hq1]
      rw [addCreateFn_lookup_ne _ _ _ _ _ x hx]
      rw [fixedMemberUpdate_lookup_ne _ _ _ _ _ _ hf x hx]
      exact lookupInfo_updateClass_ne _ _ _ _ hx

theorem processMembers_lookup_ne :
    ∀ (tp : List (String × ClassId × Bool)) (env : Env) (c : ClassId)
      (dnp : List ClassId) (acc : Acc) (env2 : Env) (acc2 : Acc),
      processMembers env c dnp acc tp = .ok (env2, acc2) →
      ∀ x, x ≠ c → lookupInfo env2 x = lookupInfo env x := by
  intro tp
  induction tp with
  | nil =>
      intro env c dnp acc env2 acc2 h x hx
      simp only [processMembers, Except.ok.injEq, Prod.mk.injEq] at h
      obtain ⟨h1, _⟩ := h
      rw [← h1]
  | cons m rest ih =>
      intro env c dnp acc env2 acc2 h x hx
      rw [processMembers] at h
      obtain ⟨q, hm, hrest⟩ := bind_eq_ok h
      rcases q with ⟨e3, kn3⟩
      rw [ih e3 c dnp _ env2 acc2 hrest x hx]
      exact processMember_lookup_ne env c dnp acc.known m e3 kn3 hm x hx

theorem preserves_all : ∀ fuel : Nat,
    (∀ env c dnp env2, expand_args_fields fuel env c dnp = .ok env2 →
        Preserves env env2) ∧
    (∀ env bs dnp acc env2 acc2,
        expandBases fuel env bs dnp acc = .ok (env2, acc2) → Preserves env env2) ∧
    (∀ env t dnp v env2, get_default_args fuel env t dnp = .ok (v, env2) →
        Preserves env env2) ∧
    (∀ env fs vs env2, structuredFields fuel env fs = .ok (vs, env2) →
        Preserves env env2) := by
  intro fuel
  induction fuel with
  | zero =>
      refine ⟨?_, ?_, ?_, ?_⟩
      · intro env c dnp env2 h; simp [expand_args_fields] at h
      · intro env bs dnp acc env2 acc2 h; simp [expandBases] at h
      · intro env t dnp v env2 h; simp [get_default_args] at h
      · intro env fs vs env2 h; simp [structuredFields] at h
  | succ n ih =>
      obtain ⟨ihE, ihB, ihG, ihS⟩ := ih
      refine ⟨?_, ?_, ?_, ?_⟩
      · intro env c dnp env2 h
        unfold expand_args_fields at h
        dsimp only [] at h
        by_cases hs : sealedOf env c = true
        · rw [if_pos hs] at h
          rw [Except.ok.injEq] at h
          rw [← h]
          exact preserves_refl env
        · rw [if_neg hs] at h
          obtain ⟨p, hB, h2⟩ := bind_eq_ok h
          rcases p with ⟨e1, acc1⟩
          obtain ⟨q, hP, h3⟩ := bind_eq_ok h2
          rcases q with ⟨e2, accq⟩
          intro x hx
          have hxc : x ≠ c := by
            intro he; subst he; exact hs hx
          rw [sealAndRecord_lookup_ne e2 c accq env2 h3 x hxc]
          rw [processMembers_lookup_ne _ e1 c dnp _ e2 accq hP x hxc]
          exact ihB env _ dnp _ e1 acc1 hB x hx
      · intro env bs dnp acc env2 acc2 h
        unfold expandBases at h
        dsimp only [] at h
        cases bs with
        | nil =>
            simp only [Except.ok.injEq, Prod.mk.injEq] at h
            obtain ⟨h1, _⟩ := h
            rw [← h1]
            exact preserves_refl env
        | cons b rest =>
            dsimp only [] at h
            by_cases h1 : b = "ReplaceableBase" ∨ b = "Configurable"
            · rw [if_pos h1] at h
              exact ihB env rest dnp acc env2 acc2 h
            · rw [if_neg h1] at h
              by_cases h2 : ¬(issub env b "Configurable" ∨ issub env b "ReplaceableBase")
              · rw [if_pos h2] at h
                exact ihB env rest dnp acc env2 acc2 h
              · rw [if_neg h2] at h
                obtain ⟨e1, hE, h3⟩ := bind_eq_ok h
                exact preserves_trans (ihE env b dnp e1 hE)
                  (ihB e1 rest dnp _ env2 acc2 h3)
      · intro env t dnp v env2 h
        unfold get_default_args at h
        dsimp only [] at h
        cases t with
        | noneT =>
            simp only [Except.ok.injEq, Prod.mk.injEq] at h
            obtain ⟨_, h2⟩ := h
            rw [← h2]
            exact preserves_refl env
        | callable ps =>
            simp only [Except.ok.injEq, Prod.mk.injEq] at h
            obtain ⟨_, h2⟩ := h
            rw [← h2]
            exact preserves_refl env
        | cls c =>
            dsimp only [] at h
            have hrest : ∀ e1, Preserves env e1 →
                (match findDataclassFields e1 c with
                  | some fs =>
                      structuredFields n e1 fs >>= fun p =>
                        Except.ok (Val.vdict
                          (List.foldl (fun es f => adel es f) p.1
                            (processedOf p.2 c)), p.2)
                  | none =>
                      if isConfigurableClass e1 c then Except.error Err.valueError
                      else Except.error Err.other) = .ok (v, env2) →
                Preserves env env2 := by
              intro e1 hPre1 h2
              cases hF : findDataclassFields e1 c with
              | some fs =>
                  rw [hF] at h2
                  obtain ⟨p, hS, h3⟩ := bind_eq_ok h2
                  rcases p with ⟨entries, e2⟩
                  have hPre2 := ihS e1 fs entries e2 hS
                  simp only [Except.ok.injEq, Prod.mk.injEq] at h3
                  obtain ⟨_, h4⟩ := h3
                  rw [← h4]
                  exact preserves_trans hPre1 hPre2
              | none =>
                  rw [hF] at h2
                  dsimp only [] at h2
                  by_cases hc2 : isConfigurableClass e1 c
                  · rw [if_pos hc2] at h2
                    exact absurd h2 (by simp)
                  · rw [if_neg hc2] at h2
                    exact absurd h2 (by simp)
            by_cases hc : isConfigurableClass env c
            · rw [if_pos hc] at h
              by_cases hm : c ∈ dnp
              · rw [if_pos hm] at h
                obtain ⟨e1, hE, _⟩ := bind_eq_ok h
                exact absurd hE (by simp)
              · rw [if_neg hm] at h
                obtain ⟨e1, hE, h2⟩ := bind_eq_ok h
                exact hrest e1 (ihE env c dnp e1 hE) h2
            · rw [if_neg hc] at h
              obtain ⟨e1, hE, h2⟩ := bind_eq_ok h
              rw [Except.ok.injEq] at hE
              exact hrest e1 (by rw [hE]; exact preserves_refl e1) h2
      · intro env fs vs env2 h
        unfold structuredFields at h
        dsimp only [] at h
        cases fs with
        | nil =>
            simp only [Except.ok.injEq, Prod.mk.injEq] at h
            obtain ⟨_, h2⟩ := h
            rw [← h2]
            exact preserves_refl env
        | cons p rest =>
            rcases p with ⟨nm, d?⟩
            obtain ⟨q1, hD, h2⟩ := bind_eq_ok h
            rcases q1 with ⟨v1, e1⟩
            have hPre1 : Preserves env e1 := by
              cases d? with
              | none =>
                  simp only [Except.ok.injEq, Prod.mk.injEq] at hD
                  obtain ⟨_, hD2⟩ := hD
                  rw [← hD2]
                  exact preserves_refl env
              | some d =>
                  cases d with
                  | dval v0 =>
                      simp only [Except.ok.injEq, Prod.mk.injEq] at hD
                      obtain ⟨_, hD2⟩ := hD
                      rw [← hD2]
                      exact preserves_refl env
                  | dfactory tC tdnp =>
                      exact ihG env (.cls tC) tdnp v1 e1 hD
            obtain ⟨q2, hS, h3⟩ := bind_eq_ok h2
            rcases q2 with ⟨vs2, e2⟩
            have hPre2 := ihS e1 rest vs2 e2 hS
            simp only [Except.ok.injEq, Prod.mk.injEq] at h3
            obtain ⟨_, h4⟩ := h3
            rw [← h4]
            exact preserves_trans hPre1 hPre2

/-- C9 (amended): `get_default_args` never mutates a `None` or callable
target (the environment is returned unchanged), and never mutates an
already-sealed class target; its only mutation of a marker-tagged class
target is the one-time memoized expansion that seals it, so once the target
is sealed every further call leaves the target's table entry unchanged. -/
theorem get_default_args_mutation_spec :
    (∀ fuel env ps dnp v env2,
        get_default_args fuel env (.callable ps) dnp = .ok (v, env2) →
        env2 = env) ∧
    (∀ fuel env dnp v env2,
        get_default_args fuel env .noneT dnp = .ok (v, env2) → env2 = env) ∧
    (∀ fuel env c dnp v env2, sealedOf env c = true →
        get_default_args fuel env (.cls c) dnp = .ok (v, env2) →
        lookupInfo env2 c = lookupInfo env c) := by
  refine ⟨?_, ?_, ?_⟩
  · intro fuel env ps dnp v env2 h
    cases fuel with
    | zero => exact absurd h (by simp [get_default_args])
    | succ n =>
        unfold get_default_args at h
        dsimp only [] at h
        simp only [Except.ok.injEq, Prod.mk.injEq] at h
        exact h.2.symm
  · intro fuel env dnp v env2 h
    cases fuel with
    | zero => exact absurd h (by simp [get_default_args])
    | succ n =>
        unfold get_default_args at h
        dsimp only [] at h
        simp only [Except.ok.injEq, Prod.mk.injEq] at h
        exact h.2.symm
  · intro fuel env c dnp v env2 hsealed h
    exact ((preserves_all fuel).2.2.1 env (.cls c) dnp v env2 h) c hsealed

/-- Witness for C9's sealed-class statement at the sealed class `S`. -/
theorem get_default_args_mutation_spec_witness :
    sealedOf sealedS_env "S" = true ∧
    lookupInfo sealedS_env "S" = lookupInfo sealedS_env "S" :=
  ⟨rfl, get_default_args_mutation_spec.2.2 5 sealedS_env "S" [] (.vdict [])
    sealedS_env rfl rfl⟩

/-- Counterexample to C9 as stated: calling `get_default_args` on the
unsealed marker-tagged class `B` of Scenario A mutates `B` — its
annotations change (the member `a` is removed, generated fields appear) and
it becomes sealed — so `get_default_args` is not side-effect-free on every
target. -/
theorem get_default_args_mutates_counterexample :
    get_default_args 40 scnA_envReg (.cls "B") [] =
      .ok (scnA_expected, scnA_envSealed) ∧
    annsOf scnA_envReg "B" = [("a", .pclassRef "A"), ("a_class_type", .pstr)] ∧
    annsOf scnA_envSealed "B" =
      [("a_class_type", .pstr), ("a_A1_args", .pdictConfig),
       ("a_A2_args", .pdictConfig)] ∧
    annsOf scnA_envSealed "B" ≠ annsOf scnA_envReg "B" ∧
    sealedOf scnA_envReg "B" = false ∧
    sealedOf scnA_envSealed "B" = true := by
  exact ⟨rfl, rfl, rfl, by decide, rfl, rfl⟩

end ConfigSys
